import Mathlib

/-!
Shallow embedding of the `aequi` import/reconciliation core
(crates/import: util.rs, match_engine.rs, rules.rs, csv.rs, ofx.rs).

Modelling conventions:
* Rust `i32`/`i64`/`usize` are modelled as `Int`/`Nat` where the source
  cannot overflow (chrono dates span fewer than 2^31 days); the one i32
  expression a caller can overflow with a legal configuration value —
  `self.date_window_days + 1` in `score_pair`, at `date_window_days =
  i32::MAX` — is modelled with two's-complement wrapping (`wrapI32`,
  release-mode semantics; a debug build panics there instead).
* Rust `f32` scores are modelled as `ℚ`; every score expression in the source
  is an exact small-denominator value.
* Rust `String`/`&str` are modelled as `List Char`; `String::len` (UTF-8 byte
  count) is realised as the length of the UTF-8 byte list `strBytes`.
* `chrono::NaiveDate` is modelled as `Int` (days since an epoch) where only
  day-differences matter (match engine), and as an explicit `y/m/d` record
  where calendar validity matters (OFX date parsing).
-/

namespace Aequi

/-- UTF-8 encoding of one scalar value (model of Rust's `str` byte view). -/
def utf8Bytes (c : Char) : List Nat :=
  let n := c.toNat
  if n < 0x80 then [n]
  else if n < 0x800 then
    [0xC0 ||| (n >>> 6), 0x80 ||| (n &&& 0x3F)]
  else if n < 0x10000 then
    [0xE0 ||| (n >>> 12), 0x80 ||| ((n >>> 6) &&& 0x3F), 0x80 ||| (n &&& 0x3F)]
  else
    [0xF0 ||| (n >>> 18), 0x80 ||| ((n >>> 12) &&& 0x3F),
     0x80 ||| ((n >>> 6) &&& 0x3F), 0x80 ||| (n &&& 0x3F)]

/-- The UTF-8 bytes of a string (Rust `s.as_bytes()`); its length is `s.len()`. -/
def strBytes (s : List Char) : List Nat :=
  (s.map utf8Bytes).flatten

/-! ### util.rs: `levenshtein_distance`, two-row dynamic programming -/

/-- Inner loop of `levenshtein_distance`: computes the tail of the current row.
`bs` is the remaining part of `b`, the prev-row values walk along in lockstep
(`p0 = prev[j-1]`, `p1 = prev[j]`), `last = curr[j-1]`. -/
def lrow (ai : Nat) : List Nat → List Nat → Nat → List Nat
  | bj :: bs, p0 :: p1 :: ps, last =>
    let c := min (p1 + 1) (min (last + 1) (p0 + if ai = bj then 0 else 1))
    c :: lrow ai bs (p1 :: ps) c
  | _, _, _ => []

/-- Outer loop of `levenshtein_distance`: one iteration per element of `a`,
row index `i` starts at 1, `prev` is the previous row. -/
def levRows (b : List Nat) : List Nat → Nat → List Nat → List Nat
  | [], _, prev => prev
  | ai :: rest, i, prev => levRows b rest (i + 1) (i :: lrow ai b prev i)

/-- `levenshtein_distance` from util.rs: early returns for empty inputs, swap
so the shorter string drives the outer loop, then the two-row DP; the answer
is `prev[n]`. -/
def levenshtein_distance (s1 s2 : List Nat) : Nat :=
  let m := s1.length
  let n := s2.length
  if m = 0 then n
  else if n = 0 then m
  else
    let p := if m ≤ n then (s1, s2) else (s2, s1)
    let a := p.1
    let b := p.2
    (levRows b a 1 (List.range (b.length + 1))).getD b.length 0

/-- Textbook edit-distance recurrence on prefix lengths (`levD a b i j` is the
distance between the first `i` bytes of `a` and the first `j` of `b`); used to
reason about the imperative two-row implementation. -/
def levD (a b : List Nat) : Nat → Nat → Nat
  | 0, j => j
  | i + 1, 0 => i + 1
  | i + 1, j + 1 =>
    min (levD a b i (j + 1) + 1)
      (min (levD a b (i + 1) j + 1)
        (levD a b i j + if a.getD i 0 = b.getD j 0 then 0 else 1))
termination_by i j => (i, j)

/-- A row of edit-distance values, as produced by one pass of the DP. -/
def rowOf (g : Nat → Nat) (len : Nat) : List Nat :=
  (List.range len).map g

/-! ### match_engine.rs: data model -/

structure MatchableTransaction where
  id : Int
  date : Int
  description : List Char
  amount_cents : Int
deriving DecidableEq, Inhabited

inductive MatchType where
  | Exact
  | DateAndAmount
  | Fuzzy (score : ℚ)
  | None
deriving DecidableEq

structure MatchResult where
  imported_tx_id : Int
  matched_tx_id : Option Int
  match_type : MatchType
  confidence : ℚ
  difference_cents : Int
deriving DecidableEq

structure AutoMatchEngine where
  date_window_days : Int
  fuzzy_threshold : ℚ
  amount_tolerance_cents : Int

/-- Two's-complement wrap to the `i32` range, the release-mode semantics of
an overflowing i32 addition (a debug build panics instead). -/
def wrapI32 (x : Int) : Int :=
  (x + 2147483648) % 4294967296 - 2147483648

/-! ### match_engine.rs: description similarity -/

/-- `normalize` from match_engine.rs: lowercase, split on non-alphanumeric,
drop empty pieces, join with single spaces.  `splitBy` models Rust
`str::split` over a char predicate (empty pieces included). -/
def splitBy (p : Char → Bool) : List Char → List (List Char)
  | [] => [[]]
  | c :: cs =>
    let r := splitBy p cs
    if p c then [] :: r
    else
      match r with
      | [] => [[c]]
      | w :: ws => (c :: w) :: ws

def normalize (s : List Char) : List Char :=
  List.intercalate [' ']
    ((splitBy (fun c => ¬ c.isAlphanum) (s.map Char.toLower)).filter (· ≠ []))

/-- `description_similarity` from match_engine.rs: normalise both inputs,
return 1 on equality, else `1 - distance / max(byte length)`. -/
def description_similarity (s1 s2 : List Char) : ℚ :=
  let a := normalize s1
  let b := normalize s2
  if a = b then 1
  else
    let ab := strBytes a
    let bb := strBytes b
    let max_len := max ab.length bb.length
    if max_len = 0 then 1
    else 1 - (levenshtein_distance ab bb : ℚ) / (max_len : ℚ)

/-! ### match_engine.rs: auto matching -/

/-- The candidate tuple returned by `score_pair`:
`(tx_id, match_type, confidence, diff_cents)`. -/
structure Scored where
  tx_id : Int
  match_type : MatchType
  confidence : ℚ
  diff : Int
deriving DecidableEq

def AutoMatchEngine.score_pair (e : AutoMatchEngine)
    (imp exp : MatchableTransaction) : Option Scored :=
  let diff_cents : Int := |imp.amount_cents - exp.amount_cents|
  if diff_cents > e.amount_tolerance_cents then none
  else
    let date_diff : Int := |imp.date - exp.date|
    if date_diff > e.date_window_days then none
    else if date_diff = 0 ∧ diff_cents = 0 then
      some ⟨exp.id, MatchType.Exact, 1, 0⟩
    else
      let date_score : ℚ :=
        1 - (date_diff : ℚ) / ((wrapI32 (e.date_window_days + 1) : Int) : ℚ)
      let desc_score := description_similarity imp.description exp.description
      let confidence := (date_score + desc_score) / 2
      if confidence ≥ e.fuzzy_threshold then
        some ⟨exp.id,
          if date_diff = 0 then MatchType.DateAndAmount
          else MatchType.Fuzzy confidence,
          confidence, diff_cents⟩
      else none

/-- Model of `f32::partial_cmp(..).unwrap_or(Ordering::Equal)`; on ℚ the
comparison is always defined. -/
def ratCompare (x y : ℚ) : Ordering :=
  if x < y then .lt else if x = y then .eq else .gt

/-- One step of Rust `Iterator::max_by`: the accumulator survives only when
it compares strictly greater, so an equal-maximum candidate replaces it. -/
def mbStep (acc : Option Scored) (x : Scored) : Option Scored :=
  match acc with
  | none => some x
  | some a => if ratCompare a.confidence x.confidence = .gt then some a else some x

/-- Rust `Iterator::max_by` on the candidate list (the last maximal element
wins ties). -/
def maxByConf (l : List Scored) : Option Scored :=
  l.foldl mbStep none

def AutoMatchEngine.find_best_match (e : AutoMatchEngine)
    (imp : MatchableTransaction) (existing : List MatchableTransaction) : MatchResult :=
  match maxByConf (existing.filterMap (e.score_pair imp)) with
  | some s => ⟨imp.id, some s.tx_id, s.match_type, s.confidence, s.diff⟩
  | none => ⟨imp.id, none, MatchType.None, 0, 0⟩

def AutoMatchEngine.find_matches (e : AutoMatchEngine)
    (imported existing : List MatchableTransaction) : List MatchResult :=
  imported.map (fun imp => e.find_best_match imp existing)

/-! ### match_engine.rs: duplicate detection -/

def find_duplicates (transactions : List MatchableTransaction)
    (window_days : Int) (threshold : ℚ) : List (Int × Int) :=
  (List.range transactions.length).flatMap fun i =>
    ((List.range transactions.length).drop (i + 1)).filterMap fun j =>
      let t1 := transactions.getD i default
      let t2 := transactions.getD j default
      if t1.amount_cents ≠ t2.amount_cents then none
      else if |t1.date - t2.date| > window_days then none
      else if description_similarity t1.description t2.description ≥ threshold then
        some (t1.id, t2.id)
      else none

/-- Spec wording of §4.5: for each ordered index pair `(i, j)` with `i < j`,
the pair is a duplicate candidate iff amounts are exactly equal, date distance
is within `window_days`, and normalized description similarity is
`≥ threshold`; the result is the list of id pairs. -/
def find_duplicatesSpec (transactions : List MatchableTransaction)
    (window_days : Int) (threshold : ℚ) : List (Int × Int) :=
  ((List.range transactions.length).flatMap fun i =>
      ((List.range transactions.length).filter (fun j => i < j)).map (fun j => (i, j)))
    |>.filter (fun p =>
      let t1 := transactions.getD p.1 default
      let t2 := transactions.getD p.2 default
      decide (t1.amount_cents = t2.amount_cents ∧
        |t1.date - t2.date| ≤ window_days ∧
        description_similarity t1.description t2.description ≥ threshold))
    |>.map (fun p =>
      ((transactions.getD p.1 default).id, (transactions.getD p.2 default).id))

/-! ### rules.rs: categorization rule engine -/

namespace Rules

inductive MatchType where
  | Contains
  | Exact
  | Regex
  | Fuzzy (threshold : ℚ)
deriving DecidableEq

structure CategoryRule where
  name : List Char
  priority : Int
  pattern : List Char
  match_type : MatchType
  account_code : List Char
  amount_min_cents : Option Int
  amount_max_cents : Option Int
deriving DecidableEq

structure CategorizableTransaction where
  date : Int
  description : List Char
  amount_cents : Int
  memo : Option (List Char)

/-- The regex library is external to the repository; it is modelled as an
engine whose `compile` either fails (`none`, an invalid pattern) or yields
the compiled regex's matching function. -/
structure RegexEngine where
  compile : List Char → Option (List Char → Bool)

structure CompiledRule where
  rule : CategoryRule
  compiled_regex : Option (List Char → Bool)

def compileRule (re : RegexEngine) (rule : CategoryRule) : CompiledRule :=
  ⟨rule,
    match rule.match_type with
    | .Regex => re.compile rule.pattern
    | _ => none⟩

/-- Stable sort by descending priority.  Rust's `slice::sort_by` is a stable
sort; with the comparator `b.rule.priority.cmp(&a.rule.priority)` the stable
result is uniquely determined, and insertion sort under the reflexive
relation `x.priority ≥ y.priority` realises it: a rule is inserted after
every strictly-higher priority and before equal priorities coming later in
declaration order. -/
def sortRules : List CompiledRule → List CompiledRule :=
  List.insertionSort (fun x y => y.rule.priority ≤ x.rule.priority)

structure CategoryRuleEngine where
  rules : List CompiledRule

def CategoryRuleEngine.new (re : RegexEngine) (rules : List CategoryRule) :
    CategoryRuleEngine :=
  ⟨sortRules (rules.map (compileRule re))⟩

/-- Rust `str::contains` with a string pattern: substring test. -/
def containsSub (text pat : List Char) : Bool :=
  text.tails.any (fun t => pat.isPrefixOf t)

/-- `fuzzy_score` from rules.rs. -/
def fuzzy_score (s1 s2 : List Char) : ℚ :=
  let b1 := strBytes s1
  let b2 := strBytes s2
  let max_len := max b1.length b2.length
  if max_len = 0 then 1
  else 1 - (levenshtein_distance b1 b2 : ℚ) / (max_len : ℚ)

def rule_matches (cr : CompiledRule) (tx : CategorizableTransaction) : Bool :=
  let rule := cr.rule
  if (match rule.amount_min_cents with
      | some mn => decide (tx.amount_cents < mn)
      | none => false) then false
  else if (match rule.amount_max_cents with
      | some mx => decide (tx.amount_cents > mx)
      | none => false) then false
  else
    let text := tx.description.map Char.toLower
    let pattern := rule.pattern.map Char.toLower
    match rule.match_type with
    | .Contains => containsSub text pattern
    | .Exact => decide (text = pattern)
    | .Regex =>
      match cr.compiled_regex with
      | some f => f tx.description
      | none => false
    | .Fuzzy threshold => decide (fuzzy_score text pattern ≥ threshold)

def CategoryRuleEngine.find_matching_rule (eng : CategoryRuleEngine)
    (tx : CategorizableTransaction) : Option CategoryRule :=
  (eng.rules.find? (fun cr => rule_matches cr tx)).map (·.rule)

/-- Whether a (raw) rule matches a transaction, via its compiled form. -/
def matchesSpec (re : RegexEngine) (rule : CategoryRule)
    (tx : CategorizableTransaction) : Bool :=
  rule_matches (compileRule re rule) tx

/-- Spec wording of §4.6 selection: return the matching rule of highest
priority; among equal priorities the first-declared matching rule wins. -/
def bestRuleSpec (re : RegexEngine) (tx : CategorizableTransaction) :
    List CategoryRule → Option CategoryRule
  | [] => none
  | r :: rs =>
    match bestRuleSpec re tx rs with
    | none => if matchesSpec re r tx then some r else none
    | some b =>
      if matchesSpec re r tx ∧ r.priority ≥ b.priority then some r else some b

end Rules

/-! ### csv.rs: CSV import -/

namespace Csv

inductive CsvError where
  | IoError
  | CsvFailure
  | MissingColumn (c : List Char)
  | InvalidDate (s : List Char)
  | InvalidAmount (s : List Char)
  | NoDataRows
deriving DecidableEq

structure CsvColumnMapping where
  date_column : Option Nat
  description_column : Option Nat
  amount_column : Option Nat
  debit_column : Option Nat
  credit_column : Option Nat
  memo_column : Option Nat
  date_format : List Char

structure CsvTransaction where
  date : Int
  description : List Char
  amount : Int
  memo : Option (List Char)
  debit : Option Int
  credit : Option Int
deriving DecidableEq

/-- Model of Rust `char::is_whitespace`. -/
def isWsp (c : Char) : Bool := c.isWhitespace

/-- Rust `str::trim`. -/
def trimChars (s : List Char) : List Char :=
  ((s.dropWhile isWsp).reverse.dropWhile isWsp).reverse

/-- Outcome of the per-record body of `CsvImporter::parse_profile`'s loop:
`continue` without a transaction, abort with an error (`?`), or keep one. -/
inductive RecStep where
  | skip
  | fail (e : CsvError)
  | keep (tx : CsvTransaction)
deriving DecidableEq

/-- One iteration of the `parse_profile` record loop (for a non-empty record).
`pd` and `pa` are the chrono and decimal backed leaf parsers `parse_date` and
`parse_amount`, passed as parameters. -/
def processRecord (pd : List Char → List Char → Except CsvError Int)
    (pa : List Char → Except CsvError Int)
    (mapping : CsvColumnMapping) (record : List (List Char)) : RecStep :=
  match mapping.date_column with
  | none => .skip
  | some col =>
    match record.get? col with
    | none => .fail (.MissingColumn ("date_column ".toList ++ (toString col).toList))
    | some field =>
      match pd field mapping.date_format with
      | .error e => .fail e
      | .ok date =>
        let description :=
          match mapping.description_column with
          | some c => record.getD c []
          | none => []
        let memo :=
          match mapping.memo_column with
          | some c => (record.get? c).filter (fun s => ¬ s.isEmpty)
          | none => none
        match mapping.amount_column with
        | some c =>
          match pa (record.getD c []) with
          | .error e => .fail e
          | .ok amt => .keep ⟨date, description, amt, memo, none, none⟩
        | none =>
          match mapping.debit_column, mapping.credit_column with
          | some d_col, some c_col =>
            let dres : Except CsvError (Option Int) :=
              match (record.get? d_col).filter (fun s => ¬ (trimChars s).isEmpty) with
              | none => .ok none
              | some s => (pa s).map some
            let cres : Except CsvError (Option Int) :=
              match (record.get? c_col).filter (fun s => ¬ (trimChars s).isEmpty) with
              | none => .ok none
              | some s => (pa s).map some
            match dres with
            | .error e => .fail e
            | .ok d =>
              match cres with
              | .error e => .fail e
              | .ok c =>
                let amt : Int :=
                  match d, c with
                  | some dv, none => dv
                  | none, some cv => -cv
                  | none, none => 0
                  | _, _ => 0
                .keep ⟨date, description, amt, memo, d, c⟩
          | _, _ => .skip

/-- The record loop of `parse_profile`: empty records are skipped, `skip`
continues, `fail` aborts, `keep` pushes. -/
def collectTxs (pd : List Char → List Char → Except CsvError Int)
    (pa : List Char → Except CsvError Int) (mapping : CsvColumnMapping) :
    List (List (List Char)) → Except CsvError (List CsvTransaction)
  | [] => .ok []
  | r :: rest =>
    if r.isEmpty then collectTxs pd pa mapping rest
    else
      match processRecord pd pa mapping r with
      | .skip => collectTxs pd pa mapping rest
      | .fail e => .error e
      | .keep tx => (collectTxs pd pa mapping rest).map (fun l => tx :: l)

/-- `CsvImporter::parse_profile`: run the loop, then the `NoDataRows` check. -/
def parse_profile (pd : List Char → List Char → Except CsvError Int)
    (pa : List Char → Except CsvError Int) (mapping : CsvColumnMapping)
    (records : List (List (List Char))) : Except CsvError (List CsvTransaction) :=
  match collectTxs pd pa mapping records with
  | .error e => .error e
  | .ok txs => if txs.isEmpty then .error .NoDataRows else .ok txs

end Csv

/-! ### ofx.rs: OFX statement parsing -/

namespace Ofx

structure OfxDate where
  y : Int
  m : Nat
  d : Nat
deriving DecidableEq

def isLeap (y : Int) : Bool := y % 4 = 0 ∧ (y % 100 ≠ 0 ∨ y % 400 = 0)

def daysInMonth (y : Int) (m : Nat) : Nat :=
  match m with
  | 1 => 31
  | 2 => if isLeap y then 29 else 28
  | 3 => 31
  | 4 => 30
  | 5 => 31
  | 6 => 30
  | 7 => 31
  | 8 => 31
  | 9 => 30
  | 10 => 31
  | 11 => 30
  | 12 => 31
  | _ => 0

/-- Model of `chrono::NaiveDate::from_ymd_opt`: proleptic Gregorian calendar
validity (chrono's ±262143 year bound is unreachable from 4-digit years and
not modelled). -/
def from_ymd_opt (y : Int) (m d : Nat) : Option OfxDate :=
  if 1 ≤ m ∧ m ≤ 12 ∧ 1 ≤ d ∧ d ≤ daysInMonth y m then some ⟨y, m, d⟩ else none

def digitVal (b : Nat) : Option Nat :=
  if 48 ≤ b ∧ b ≤ 57 then some (b - 48) else none

def parseDigitsAux : List Nat → Nat → Option Nat
  | [], acc => some acc
  | b :: bs, acc =>
    match digitVal b with
    | none => none
    | some d => parseDigitsAux bs (acc * 10 + d)

/-- Nonempty all-digit decimal number. -/
def parseNatStr : List Nat → Option Nat
  | [] => none
  | l => parseDigitsAux l 0

/-- Rust `str::parse::<u32>` on a byte slice: optional `+`, then digits. -/
def parseU32 (l : List Nat) : Option Nat :=
  let body := match l with
    | 43 :: rest => rest
    | _ => l
  match parseNatStr body with
  | some v => if v ≤ 4294967295 then some v else none
  | none => none

/-- Rust `str::parse::<i32>` on a byte slice: optional sign, then digits. -/
def parseI32 (l : List Nat) : Option Int :=
  match l with
  | 45 :: rest =>
    (parseNatStr rest).bind fun v =>
      if v ≤ 2147483648 then some (-(v : Int)) else none
  | 43 :: rest =>
    (parseNatStr rest).bind fun v =>
      if v ≤ 2147483647 then some ((v : Int)) else none
  | _ =>
    (parseNatStr l).bind fun v =>
      if v ≤ 2147483647 then some ((v : Int)) else none

/-- Skip an optional fractional-second part `.digits+`. -/
def dropFrac (l : List Nat) : Option (List Nat) :=
  match l with
  | 46 :: rest =>
    let ds := rest.takeWhile (fun b => decide (48 ≤ b ∧ b ≤ 57))
    if ds.isEmpty then none else some (rest.drop ds.length)
  | _ => some l

/-- RFC 3339 numeric offset or `Z`/`z`. -/
def validOffset (l : List Nat) : Bool :=
  match l with
  | [90] => true
  | [122] => true
  | [sign, h1, h2, 58, m1, m2] =>
    decide (sign = 43 ∨ sign = 45) &&
      (match parseNatStr [h1, h2], parseNatStr [m1, m2] with
       | some hh, some mm => decide (hh ≤ 23 ∧ mm ≤ 59)
       | _, _ => false)
  | _ => false

/-- Modelled from the spec: the "full timestamp parse" fallback of date
resolution (`chrono::DateTime::parse_from_rfc3339` followed by `date_naive`),
which lives outside this repository.  Accepts `YYYY-MM-DDTHH:MM:SS`, optional
fractional seconds, and an offset (`Z` or `±HH:MM`), and yields the calendar
date as written. -/
def parse_rfc3339_date (bs : List Nat) : Option OfxDate :=
  match bs with
  | y1 :: y2 :: y3 :: y4 :: 45 :: m1 :: m2 :: 45 :: d1 :: d2 :: t :: rest =>
    if t = 84 ∨ t = 116 then
      match parseNatStr [y1, y2, y3, y4], parseNatStr [m1, m2], parseNatStr [d1, d2] with
      | some y, some m, some d =>
        (match rest with
         | h1 :: h2 :: 58 :: mi1 :: mi2 :: 58 :: s1 :: s2 :: tail =>
           match parseNatStr [h1, h2], parseNatStr [mi1, mi2], parseNatStr [s1, s2] with
           | some hh, some mm, some ss =>
             if hh ≤ 23 ∧ mm ≤ 59 ∧ ss ≤ 60 then
               match dropFrac tail with
               | some off => if validOffset off then from_ymd_opt (y : Int) m d else none
               | none => none
             else none
           | _, _, _ => none
         | _ => none)
      | _, _, _ => none
    else none
  | _ => none

/-- `parse_ofx_date` from ofx.rs.  The three prefix-field parses use the `?`
operator on `Option`: a failed field parse returns `None` for the whole
function immediately; only an invalid calendar date (or a short string) falls
through to the full-timestamp attempt.  (The source slices bytes of the
trimmed `&str`; a slice boundary inside a multi-byte char would panic in Rust
— here such bytes simply fail the digit parse.) -/
def parse_ofx_date (s : List Char) : Option OfxDate :=
  let bs := strBytes (Csv.trimChars s)
  if bs.length ≥ 8 then
    match parseI32 (bs.take 4) with
    | none => none
    | some y =>
      match parseU32 ((bs.drop 4).take 2) with
      | none => none
      | some m =>
        match parseU32 ((bs.drop 6).take 2) with
        | none => none
        | some d =>
          match from_ymd_opt y m d with
          | some date => some date
          | none => parse_rfc3339_date bs
  else parse_rfc3339_date bs

/-- The claim's reading of date resolution (§4.3): interpret the 8-digit
prefix as `YYYYMMDD`; whenever that interpretation fails — for any reason —
fall back to the full timestamp parse before giving up. -/
def parse_ofx_dateClaim (s : List Char) : Option OfxDate :=
  let bs := strBytes (Csv.trimChars s)
  let viaPrefix : Option OfxDate :=
    if bs.length ≥ 8 then
      match parseI32 (bs.take 4), parseU32 ((bs.drop 4).take 2),
          parseU32 ((bs.drop 6).take 2) with
      | some y, some m, some d => from_ymd_opt y m d
      | _, _, _ => none
    else none
  match viaPrefix with
  | some date => some date
  | none => parse_rfc3339_date bs

/-- Amended reading: a valid 8-digit prefix yields that date; the full
timestamp fallback is attempted only when the string is shorter than 8 bytes,
or when the three prefix fields parse numerically but do not form a valid
calendar date; if a prefix field of a string of 8 or more bytes fails to
parse numerically, the parser returns `None` without attempting the
fallback. -/
def parse_ofx_dateAmended (s : List Char) : Option OfxDate :=
  let bs := strBytes (Csv.trimChars s)
  if bs.length ≥ 8 then
    match parseI32 (bs.take 4), parseU32 ((bs.drop 4).take 2),
        parseU32 ((bs.drop 6).take 2) with
    | some y, some m, some d =>
      match from_ymd_opt y m d with
      | some date => some date
      | none => parse_rfc3339_date bs
    | _, _, _ => none
  else parse_rfc3339_date bs

structure OfxTransaction where
  fit_id : List Char
  date : OfxDate
  amount : Int
  memo : Option (List Char)
  name : Option (List Char)
  check_number : Option (List Char)
deriving DecidableEq

structure OfxAccount where
  account_id : List Char
  bank_id : Option (List Char)
  account_type : Option (List Char)
deriving DecidableEq

structure OfxStatement where
  account : OfxAccount
  start_date : OfxDate
  end_date : OfxDate
  transactions : List OfxTransaction
  currency : Option (List Char)
deriving DecidableEq

inductive OfxError where
  | ParseError (s : List Char)
  | MissingField (s : List Char)
  | InvalidDate (s : List Char)
deriving DecidableEq

structure BuildingTrx where
  fit_id : Option (List Char)
  date : Option OfxDate
  amount : Option Int
  memo : Option (List Char)
  name : Option (List Char)
  check_number : Option (List Char)
deriving DecidableEq

def BuildingTrx.empty : BuildingTrx := ⟨none, none, none, none, none, none⟩

/-- The mutable locals of `OfxParser::parse`'s scan loop. -/
structure OfxState where
  account_id : List Char
  bank_id : Option (List Char)
  account_type : Option (List Char)
  start_date : Option OfxDate
  end_date : Option OfxDate
  currency : Option (List Char)
  transactions : List OfxTransaction
  in_stmttrn : Bool
  current_trx : Option BuildingTrx
deriving DecidableEq

def initState : OfxState := ⟨[], none, none, none, none, none, [], false, none⟩

/-- `tag.trim_end_matches(&['>', '\r', '\n'][..])`. -/
def trimEndGt (l : List Char) : List Char :=
  (l.reverse.dropWhile (fun c => c = '>' ∨ c = '\r' ∨ c = '\n')).reverse

/-- Rust `str::split_once`. -/
def splitOnce (sep : Char) : List Char → Option (List Char × List Char)
  | [] => none
  | c :: cs =>
    if c = sep then some ([], cs)
    else (splitOnce sep cs).map (fun p => (c :: p.1, p.2))

/-- The per-line tag extraction: trimmed empty lines and lines not starting
with `<` carry no tag; otherwise split at the first `>` into name and value,
or strip trailing `>`/CR/LF when there is no `>`. -/
def parseLine (line : List Char) : Option (List Char × Option (List Char)) :=
  let l := Csv.trimChars line
  match l with
  | '<' :: tag =>
    some
      (match splitOnce '>' tag with
       | some p => (Csv.trimChars p.1, some (Csv.trimChars p.2))
       | none => (trimEndGt tag, none))
  | _ => none

/-- The big `match tag_name.to_uppercase()` of the scan loop.  `pAmt` is the
decimal-backed `parse_ofx_amount`, passed as a parameter. -/
def handleTag (pAmt : List Char → Option Int) (st : OfxState)
    (tag_name : List Char) (value : Option (List Char)) : OfxState :=
  let tagU := tag_name.map Char.toUpper
  if tagU = "ACCTID".toList then
    match value with
    | some v => { st with account_id := v }
    | none => st
  else if tagU = "BANKID".toList then
    match value with
    | some v => { st with bank_id := some v }
    | none => st
  else if tagU = "ACCTTYPE".toList then
    match value with
    | some v => { st with account_type := some v }
    | none => st
  else if tagU = "DTSTART".toList then
    match value with
    | some v => { st with start_date := parse_ofx_date v }
    | none => st
  else if tagU = "DTEND".toList then
    match value with
    | some v => { st with end_date := parse_ofx_date v }
    | none => st
  else if tagU = "CURDEF".toList then
    match value with
    | some v => { st with currency := some v }
    | none => st
  else if tagU = "STMTTRN".toList then
    { st with in_stmttrn := true, current_trx := some BuildingTrx.empty }
  else if tagU = "/STMTTRN".toList then
    match st.current_trx with
    | some trx =>
      match trx.date with
      | some date =>
        { st with
            transactions := st.transactions ++
              [⟨trx.fit_id.getD [], date, trx.amount.getD 0,
                trx.memo, trx.name, trx.check_number⟩],
            current_trx := none, in_stmttrn := false }
      | none => { st with current_trx := none, in_stmttrn := false }
    | none => { st with in_stmttrn := false }
  else if st.in_stmttrn then
    match st.current_trx with
    | some trx =>
      let trx' :=
        if tagU = "FITID".toList then
          match value with
          | some v => { trx with fit_id := some v }
          | none => trx
        else if tagU = "DTPOSTED".toList then
          match value with
          | some v => { trx with date := parse_ofx_date v }
          | none => trx
        else if tagU = "TRNAMT".toList then
          match value with
          | some v => { trx with amount := pAmt v }
          | none => trx
        else if tagU = "MEMO".toList then
          match value with
          | some v => { trx with memo := some v }
          | none => trx
        else if tagU = "NAME".toList then
          match value with
          | some v => { trx with name := some v }
          | none => trx
        else if tagU = "CHECKNUM".toList then
          match value with
          | some v => { trx with check_number := some v }
          | none => trx
        else trx
      { st with current_trx := some trx' }
    | none => st
  else st

/-- One iteration of the scan loop over a line. -/
def step (pAmt : List Char → Option Int) (st : OfxState) (line : List Char) :
    OfxState :=
  match parseLine line with
  | none => st
  | some p => handleTag pAmt st p.1 p.2

/-- `OfxParser::parse` over the (already line-split) input. -/
def parse (pAmt : List Char → Option Int) (lines : List (List Char)) :
    Except OfxError OfxStatement :=
  let st := lines.foldl (step pAmt) initState
  match st.start_date with
  | none => .error (.MissingField "DTSTART".toList)
  | some sd =>
    match st.end_date with
    | none => .error (.MissingField "DTEND".toList)
    | some ed =>
      if st.account_id.isEmpty then .error (.MissingField "ACCTID".toList)
      else .ok ⟨⟨st.account_id, st.bank_id, st.account_type⟩, sd, ed,
        st.transactions, st.currency⟩

end Ofx

/-! ## Theorems

### The two-row loop computes the textbook edit-distance recurrence -/

theorem levD_zero (a b : List Nat) (j : Nat) : levD a b 0 j = j := by
  rw [levD.eq_def]

theorem levD_succ_zero (a b : List Nat) (i : Nat) : levD a b (i + 1) 0 = i + 1 := by
  rw [levD.eq_def]

theorem levD_succ_succ (a b : List Nat) (i j : Nat) :
    levD a b (i + 1) (j + 1) =
      min (levD a b i (j + 1) + 1)
        (min (levD a b (i + 1) j + 1)
          (levD a b i j + if a.getD i 0 = b.getD j 0 then 0 else 1)) := by
  rw [levD.eq_def]

theorem levD_le_max (a b : List Nat) : ∀ i j, levD a b i j ≤ max i j := by
  intro i
  induction i with
  | zero => intro j; rw [levD_zero]; exact Nat.le_max_right _ _
  | succ i ih =>
    intro j
    induction j with
    | zero => rw [levD_succ_zero]; exact Nat.le_max_left _ _
    | succ j ihj =>
      rw [levD_succ_succ]
      have h3 : levD a b i j + (if a.getD i 0 = b.getD j 0 then 0 else 1) ≤ max i j + 1 := by
        have := ih j
        split <;> omega
      calc min (levD a b i (j + 1) + 1)
            (min (levD a b (i + 1) j + 1)
              (levD a b i j + if a.getD i 0 = b.getD j 0 then 0 else 1))
          ≤ levD a b i j + if a.getD i 0 = b.getD j 0 then 0 else 1 :=
            le_trans (min_le_right _ _) (min_le_right _ _)
        _ ≤ max i j + 1 := h3
        _ = max (i + 1) (j + 1) := (Nat.succ_max_succ i j).symm

theorem levD_symm (a b : List Nat) : ∀ i j, levD a b i j = levD b a j i := by
  intro i
  induction i with
  | zero =>
    intro j
    cases j with
    | zero => rw [levD_zero, levD_zero]
    | succ j => rw [levD_zero, levD_succ_zero]
  | succ i ih =>
    intro j
    induction j with
    | zero => rw [levD_succ_zero, levD_zero]
    | succ j ihj =>
      rw [levD_succ_succ, levD_succ_succ, ih (j + 1), ihj, ih j]
      have hc : (if a.getD i 0 = b.getD j 0 then 0 else 1) =
          (if b.getD j 0 = a.getD i 0 then 0 else 1) := by
        by_cases h : a.getD i 0 = b.getD j 0
        · rw [if_pos h, if_pos h.symm]
        · rw [if_neg h, if_neg (fun he => h (Eq.symm he))]
      rw [hc, min_left_comm]

theorem getD_of_drop_cons :
    ∀ (l : List Nat) (k : Nat) (x : Nat) (xs : List Nat),
      l.drop k = x :: xs → l.getD k 0 = x := by
  intro l
  induction l with
  | nil => intro k x xs h; simp at h
  | cons a as ih =>
    intro k x xs h
    cases k with
    | zero => simp at h; simp [h.1]
    | succ k => exact ih k x xs h

theorem drop_succ_of_drop_cons :
    ∀ (l : List Nat) (k : Nat) (x : Nat) (xs : List Nat),
      l.drop k = x :: xs → l.drop (k + 1) = xs := by
  intro l
  induction l with
  | nil => intro k x xs h; simp at h
  | cons a as ih =>
    intro k x xs h
    cases k with
    | zero => simp at h ⊢; exact h.2
    | succ k => exact ih k x xs h

theorem rowOf_zero (g : Nat → Nat) : rowOf g 0 = [] := rfl

theorem rowOf_succ (g : Nat → Nat) (n : Nat) :
    rowOf g (n + 1) = g 0 :: rowOf (fun t => g (t + 1)) n := by
  unfold rowOf
  rw [List.range_succ_eq_map, List.map_cons, List.map_map]
  rfl

theorem rowOf_congr {g g' : Nat → Nat} (n : Nat) (h : ∀ t, g t = g' t) :
    rowOf g n = rowOf g' n := by
  rw [funext h]

theorem rowOf_getD (g : Nat → Nat) (n : Nat) : (rowOf g (n + 1)).getD n 0 = g n := by
  unfold rowOf
  rw [List.getD_eq_getElem?_getD, List.getElem?_map, List.getElem?_range (by omega)]
  rfl

theorem lrow_spec (a b : List Nat) (d : Nat) (ai : Nat) (hai : ai = a.getD d 0) :
    ∀ (bs : List Nat) (k : Nat), b.drop k = bs →
      lrow ai bs (rowOf (fun t => levD a b d (k + t)) (bs.length + 1))
          (levD a b (d + 1) k) =
        rowOf (fun t => levD a b (d + 1) (k + 1 + t)) bs.length := by
  intro bs
  induction bs with
  | nil => intro k _; rfl
  | cons bj bs ih =>
    intro k hk
    have hbj : bj = b.getD k 0 := (getD_of_drop_cons b k bj bs hk).symm
    have hdrop : b.drop (k + 1) = bs := drop_succ_of_drop_cons b k bj bs hk
    have hprev : rowOf (fun t => levD a b d (k + t)) ((bj :: bs).length + 1) =
        levD a b d k :: levD a b d (k + 1) ::
          rowOf (fun t => levD a b d (k + 1 + 1 + t)) bs.length := by
      rw [List.length_cons, rowOf_succ, rowOf_succ]
      refine congrArg₂ List.cons (congrArg (levD a b d) (by omega))
        (congrArg₂ List.cons (congrArg (levD a b d) (by omega)) ?_)
      exact rowOf_congr _ (fun t => congrArg (levD a b d) (by omega))
    rw [hprev]
    simp only [lrow]
    have hc : min (levD a b d (k + 1) + 1)
        (min (levD a b (d + 1) k + 1)
          (levD a b d k + if ai = bj then 0 else 1)) =
        levD a b (d + 1) (k + 1) := by
      rw [hai, hbj]
      exact (levD_succ_succ a b d k).symm
    rw [hc]
    have hps : (levD a b d (k + 1) ::
        rowOf (fun t => levD a b d (k + 1 + 1 + t)) bs.length) =
        rowOf (fun t => levD a b d (k + 1 + t)) (bs.length + 1) := by
      rw [rowOf_succ]
      refine congrArg₂ List.cons (congrArg (levD a b d) (by omega)) ?_
      exact rowOf_congr _ (fun t => congrArg (levD a b d) (by omega))
    rw [hps, ih (k + 1) hdrop]
    rw [List.length_cons, rowOf_succ]
    refine congrArg₂ List.cons (congrArg (levD a b (d + 1)) (by omega)) ?_
    exact rowOf_congr _ (fun t => congrArg (levD a b (d + 1)) (by omega))

theorem levRows_spec (a b : List Nat) :
    ∀ (rest : List Nat) (d : Nat), a.drop d = rest → d ≤ a.length →
      levRows b rest (d + 1) (rowOf (levD a b d) (b.length + 1)) =
        rowOf (levD a b a.length) (b.length + 1) := by
  intro rest
  induction rest with
  | nil =>
    intro d hd hle
    have : a.length ≤ d := List.drop_eq_nil_iff.mp hd
    have hda : d = a.length := le_antisymm hle this
    rw [hda, levRows]
  | cons ai rest ih =>
    intro d hd hle
    have hai : ai = a.getD d 0 := (getD_of_drop_cons a d ai rest hd).symm
    have hdrop : a.drop (d + 1) = rest := drop_succ_of_drop_cons a d ai rest hd
    have hlt : d < a.length := by
      by_contra hcon
      have : a.drop d = [] := List.drop_eq_nil_iff.mpr (by omega)
      rw [hd] at this
      exact List.cons_ne_nil _ _ this
    rw [levRows]
    have hrow0 : rowOf (levD a b d) (b.length + 1) =
        rowOf (fun t => levD a b d (0 + t)) (b.length + 1) :=
      rowOf_congr _ (fun t => congrArg (levD a b d) (by omega))
    have hlast : (d + 1 : Nat) = levD a b (d + 1) 0 := (levD_succ_zero a b d).symm
    have hl := lrow_spec a b d ai hai b 0 (List.drop_zero b)
    rw [hrow0]
    have hlen : rowOf (fun t => levD a b d (0 + t)) (b.length + 1) =
        rowOf (fun t => levD a b d (0 + t)) (b.length + 1) := rfl
    -- rewrite the freshly built row into `rowOf (levD a b (d+1))`
    have hbuilt : (d + 1) :: lrow ai b (rowOf (fun t => levD a b d (0 + t)) (b.length + 1)) (d + 1) =
        rowOf (levD a b (d + 1)) (b.length + 1) := by
      have h1 : lrow ai b (rowOf (fun t => levD a b d (0 + t)) (b.length + 1)) (d + 1) =
          rowOf (fun t => levD a b (d + 1) (0 + 1 + t)) b.length := by
        calc lrow ai b (rowOf (fun t => levD a b d (0 + t)) (b.length + 1)) (d + 1)
            = lrow ai b (rowOf (fun t => levD a b d (0 + t)) (b.length + 1))
                (levD a b (d + 1) 0) := by rw [← hlast]
          _ = rowOf (fun t => levD a b (d + 1) (0 + 1 + t)) b.length := hl
      rw [h1, rowOf_succ]
      refine congrArg₂ List.cons (levD_succ_zero a b d).symm ?_
      exact rowOf_congr _ (fun t => congrArg (levD a b (d + 1)) (by omega))
    rw [hbuilt]
    exact ih (d + 1) hdrop (by omega)

theorem levCore_eq (a b : List Nat) :
    (levRows b a 1 (List.range (b.length + 1))).getD b.length 0 =
      levD a b a.length b.length := by
  have h0 : List.range (b.length + 1) = rowOf (levD a b 0) (b.length + 1) := by
    unfold rowOf
    rw [show levD a b 0 = fun j => j from funext (levD_zero a b)]
    exact (List.map_id' _).symm
  rw [h0]
  rw [show (1 : Nat) = 0 + 1 from rfl]
  rw [levRows_spec a b a 0 (List.drop_zero a) (Nat.zero_le _)]
  exact rowOf_getD _ _

theorem levenshtein_eq (s1 s2 : List Nat) :
    levenshtein_distance s1 s2 =
      if s1.length = 0 then s2.length
      else if s2.length = 0 then s1.length
      else if s1.length ≤ s2.length then levD s1 s2 s1.length s2.length
      else levD s2 s1 s2.length s1.length := by
  unfold levenshtein_distance
  by_cases h1 : s1.length = 0
  · simp [h1]
  · by_cases h2 : s2.length = 0
    · simp [h1, h2]
    · by_cases hle : s1.length ≤ s2.length
      · simp only [h1, h2, hle, if_false, if_true, if_neg, if_pos]
        exact levCore_eq s1 s2
      · simp only [h1, h2, hle, if_false, if_true, if_neg, if_pos]
        exact levCore_eq s2 s1

theorem levenshtein_symm (s1 s2 : List Nat) :
    levenshtein_distance s1 s2 = levenshtein_distance s2 s1 := by
  rw [levenshtein_eq, levenshtein_eq]
  by_cases h1 : s1.length = 0 <;> by_cases h2 : s2.length = 0
  · simp [h1, h2]
  · simp [h1, h2]
  · simp [h1, h2]
  · by_cases hle : s1.length ≤ s2.length
    · by_cases hge : s2.length ≤ s1.length
      · simp only [h1, h2, hle, hge, if_false, if_true, if_neg, if_pos]
        exact levD_symm s1 s2 s1.length s2.length
      · have : ¬ s2.length ≤ s1.length := hge
        simp [h1, h2, hle, this]
    · have : s2.length ≤ s1.length := le_of_not_le hle
      simp [h1, h2, hle, this]

theorem levenshtein_le_max (s1 s2 : List Nat) :
    levenshtein_distance s1 s2 ≤ max s1.length s2.length := by
  rw [levenshtein_eq]
  by_cases h1 : s1.length = 0
  · simp [h1]
  · by_cases h2 : s2.length = 0
    · simp [h1, h2]
    · by_cases hle : s1.length ≤ s2.length
      · simp only [h1, h2, hle, if_false, if_true, if_neg, if_pos]
        exact levD_le_max s1 s2 _ _
      · simp only [h1, h2, hle, if_false, if_true, if_neg, if_pos]
        exact le_trans (levD_le_max s2 s1 _ _) (le_of_eq (Nat.max_comm _ _))

/-! ### Similarity primitive: bounds and algebraic laws -/

theorem description_similarity_def (s1 s2 : List Char) :
    description_similarity s1 s2 =
      if normalize s1 = normalize s2 then 1
      else
        if max (strBytes (normalize s1)).length (strBytes (normalize s2)).length = 0 then 1
        else 1 -
          (levenshtein_distance (strBytes (normalize s1)) (strBytes (normalize s2)) : ℚ) /
            ((max (strBytes (normalize s1)).length (strBytes (normalize s2)).length : Nat) : ℚ) :=
  rfl

theorem description_similarity_self (s : List Char) :
    description_similarity s s = 1 := by
  rw [description_similarity_def, if_pos rfl]

theorem description_similarity_comm (s1 s2 : List Char) :
    description_similarity s1 s2 = description_similarity s2 s1 := by
  rw [description_similarity_def, description_similarity_def]
  by_cases h : normalize s1 = normalize s2
  · rw [if_pos h, if_pos h.symm]
  · rw [if_neg h, if_neg (fun he => h (Eq.symm he))]
    rw [levenshtein_symm, Nat.max_comm]

theorem description_similarity_nonneg (s1 s2 : List Char) :
    0 ≤ description_similarity s1 s2 := by
  rw [description_similarity_def]
  by_cases h : normalize s1 = normalize s2
  · rw [if_pos h]; norm_num
  · rw [if_neg h]
    set L := levenshtein_distance (strBytes (normalize s1)) (strBytes (normalize s2)) with hL
    set M := max (strBytes (normalize s1)).length (strBytes (normalize s2)).length with hM
    by_cases h0 : M = 0
    · rw [if_pos h0]; norm_num
    · rw [if_neg h0]
      have hpos : (0 : ℚ) < (M : ℚ) := by exact_mod_cast Nat.pos_of_ne_zero h0
      have hle : (L : ℚ) ≤ (M : ℚ) := by
        have := levenshtein_le_max (strBytes (normalize s1)) (strBytes (normalize s2))
        rw [← hL, ← hM] at this
        exact_mod_cast this
      have hdiv := (div_le_one hpos).mpr hle
      linarith

theorem description_similarity_le_one (s1 s2 : List Char) :
    description_similarity s1 s2 ≤ 1 := by
  rw [description_similarity_def]
  by_cases h : normalize s1 = normalize s2
  · rw [if_pos h]
  · rw [if_neg h]
    set L := levenshtein_distance (strBytes (normalize s1)) (strBytes (normalize s2)) with hL
    set M := max (strBytes (normalize s1)).length (strBytes (normalize s2)).length with hM
    by_cases h0 : M = 0
    · rw [if_pos h0]
    · rw [if_neg h0]
      have hpos : (0 : ℚ) < (M : ℚ) := by exact_mod_cast Nat.pos_of_ne_zero h0
      have hnn : (0 : ℚ) ≤ (L : ℚ) := by positivity
      have := div_nonneg hnn hpos.le
      linarith

/-- C9: the similarity primitive is symmetric, reflexive at 1.0, and the
similarity of two empty strings is 1.0. -/
theorem similarity_symm_refl_empty :
    (∀ s1 s2 : List Char, description_similarity s1 s2 = description_similarity s2 s1) ∧
    (∀ s : List Char, description_similarity s s = 1) ∧
    description_similarity [] [] = 1 :=
  ⟨description_similarity_comm, description_similarity_self,
    description_similarity_self []⟩

/-! ### Auto-match engine: scoring -/

theorem score_pair_def (e : AutoMatchEngine) (imp exp : MatchableTransaction) :
    e.score_pair imp exp =
      if |imp.amount_cents - exp.amount_cents| > e.amount_tolerance_cents then none
      else if |imp.date - exp.date| > e.date_window_days then none
      else if |imp.date - exp.date| = 0 ∧ |imp.amount_cents - exp.amount_cents| = 0 then
        some ⟨exp.id, MatchType.Exact, 1, 0⟩
      else if (1 - ((|imp.date - exp.date| : Int) : ℚ) /
          ((wrapI32 (e.date_window_days + 1) : Int) : ℚ) +
          description_similarity imp.description exp.description) / 2 ≥
            e.fuzzy_threshold then
        some ⟨exp.id,
          if |imp.date - exp.date| = 0 then MatchType.DateAndAmount
          else
            MatchType.Fuzzy ((1 -
              ((|imp.date - exp.date| : Int) : ℚ) /
          ((wrapI32 (e.date_window_days + 1) : Int) : ℚ) +
                description_similarity imp.description exp.description) / 2),
          (1 - ((|imp.date - exp.date| : Int) : ℚ) /
          ((wrapI32 (e.date_window_days + 1) : Int) : ℚ) +
            description_similarity imp.description exp.description) / 2,
          |imp.amount_cents - exp.amount_cents|⟩
      else none :=
  rfl

theorem wrapI32_eq_self (x : Int) (h1 : -2147483648 ≤ x) (h2 : x < 2147483648) :
    wrapI32 x = x := by
  unfold wrapI32
  omega

theorem score_conf_bounds (e : AutoMatchEngine) (imp exp : MatchableTransaction)
    (h2 : ¬ |imp.date - exp.date| > e.date_window_days)
    (hw : e.date_window_days < 2147483647) :
    0 ≤ (1 - ((|imp.date - exp.date| : Int) : ℚ) /
        ((wrapI32 (e.date_window_days + 1) : Int) : ℚ) +
        description_similarity imp.description exp.description) / 2 ∧
    (1 - ((|imp.date - exp.date| : Int) : ℚ) /
        ((wrapI32 (e.date_window_days + 1) : Int) : ℚ) +
        description_similarity imp.description exp.description) / 2 ≤ 1 := by
  have hd0 : (0 : Int) ≤ |imp.date - exp.date| := abs_nonneg _
  have hdw : |imp.date - exp.date| ≤ e.date_window_days := not_lt.mp h2
  have hw0 : (0 : Int) ≤ e.date_window_days := le_trans hd0 hdw
  have hwrap : wrapI32 (e.date_window_days + 1) = e.date_window_days + 1 :=
    wrapI32_eq_self _ (by omega) (by omega)
  have hcast : ((e.date_window_days + 1 : Int) : ℚ) = (e.date_window_days : ℚ) + 1 := by
    push_cast
    ring
  rw [hwrap, hcast]
  have hq0 : (0 : ℚ) ≤ ((|imp.date - exp.date| : Int) : ℚ) := by exact_mod_cast hd0
  have hqw : ((|imp.date - exp.date| : Int) : ℚ) ≤ (e.date_window_days : ℚ) := by
    exact_mod_cast hdw
  have hw1 : (0 : ℚ) < (e.date_window_days : ℚ) + 1 := by
    have : (0 : ℚ) ≤ (e.date_window_days : ℚ) := by exact_mod_cast hw0
    linarith
  have hds0 :
      0 ≤ 1 - ((|imp.date - exp.date| : Int) : ℚ) / ((e.date_window_days : ℚ) + 1) := by
    have hle1 : ((|imp.date - exp.date| : Int) : ℚ) / ((e.date_window_days : ℚ) + 1) ≤ 1 :=
      (div_le_one hw1).mpr (by linarith)
    linarith
  have hds1 :
      1 - ((|imp.date - exp.date| : Int) : ℚ) / ((e.date_window_days : ℚ) + 1) ≤ 1 := by
    have := div_nonneg hq0 hw1.le
    linarith
  have hsim0 := description_similarity_nonneg imp.description exp.description
  have hsim1 := description_similarity_le_one imp.description exp.description
  constructor <;> linarith

theorem score_pair_some_matchtype (e : AutoMatchEngine)
    (imp exp : MatchableTransaction) (s : Scored)
    (h : e.score_pair imp exp = some s) : s.match_type ≠ MatchType.None := by
  rw [score_pair_def] at h
  split_ifs at h with h1 h2 h3 h4 h5
  · obtain rfl := Option.some.inj h
    simp
  · obtain rfl := Option.some.inj h
    simp
  · obtain rfl := Option.some.inj h
    simp

theorem score_pair_some_conf_bounds (e : AutoMatchEngine)
    (imp exp : MatchableTransaction) (s : Scored)
    (hw : e.date_window_days < 2147483647)
    (h : e.score_pair imp exp = some s) :
    0 ≤ s.confidence ∧ s.confidence ≤ 1 := by
  rw [score_pair_def] at h
  split_ifs at h with h1 h2 h3 h4 h5
  · obtain rfl := Option.some.inj h
    exact ⟨by norm_num, by norm_num⟩
  · obtain rfl := Option.some.inj h
    exact score_conf_bounds e imp exp h2 hw
  · obtain rfl := Option.some.inj h
    exact score_conf_bounds e imp exp h2 hw

/-- C4 (amended): for an engine whose date window and amount tolerance are
non-negative, a pair with identical date and identical amount always scores
as an `Exact` match with confidence 1.0 and zero difference — for any
descriptions, so no description comparison takes part in the result. -/
theorem score_pair_identical_is_exact (e : AutoMatchEngine)
    (imp exp : MatchableTransaction)
    (hw : 0 ≤ e.date_window_days) (ht : 0 ≤ e.amount_tolerance_cents)
    (hd : imp.date = exp.date) (ha : imp.amount_cents = exp.amount_cents) :
    e.score_pair imp exp = some ⟨exp.id, MatchType.Exact, 1, 0⟩ := by
  rw [score_pair_def, hd, ha]
  simp only [sub_self, abs_zero]
  rw [if_neg (not_lt.mpr ht), if_neg (not_lt.mpr hw), if_pos ⟨trivial, trivial⟩]

theorem score_pair_identical_is_exact_witness :
    (0 : Int) ≤ 3 ∧ (0 : Int) ≤ 1 ∧
    (AutoMatchEngine.mk 3 (7 / 10) 1).score_pair ⟨1, 10, ['a'], 50⟩ ⟨2, 10, ['b'], 50⟩ =
      some ⟨2, MatchType.Exact, 1, 0⟩ :=
  ⟨by norm_num, by norm_num,
    score_pair_identical_is_exact (AutoMatchEngine.mk 3 (7 / 10) 1)
      ⟨1, 10, ['a'], 50⟩ ⟨2, 10, ['b'], 50⟩ (by norm_num) (by norm_num) rfl rfl⟩

/-- C4 counterexample: with a negative date window (or a negative amount
tolerance) the engine rejects even an identical pair, so "always yields
Exact" fails as universally stated. -/
theorem score_pair_identical_counterexample :
    (AutoMatchEngine.mk (-1) (7 / 10) 1).score_pair ⟨1, 10, [], 50⟩ ⟨2, 10, [], 50⟩ =
        none ∧
    (AutoMatchEngine.mk 3 (7 / 10) (-1)).score_pair ⟨1, 10, [], 50⟩ ⟨2, 10, [], 50⟩ =
        none := by
  constructor <;> (rw [score_pair_def]; norm_num)

/-! ### Auto-match engine: best-match selection -/

theorem ratCompare_gt {x y : ℚ} : ratCompare x y = Ordering.gt ↔ y < x := by
  constructor
  · intro h
    unfold ratCompare at h
    split_ifs at h with h1 h2
    exact lt_of_le_of_ne (not_lt.mp h1) (fun he => h2 he.symm)
  · intro h
    unfold ratCompare
    rw [if_neg (not_lt.mpr h.le), if_neg (ne_of_gt h)]

theorem foldl_mbStep_char :
    ∀ (l : List Scored) (a : Scored),
      (l.foldl mbStep (some a) = some a ∧ ∀ x ∈ l, x.confidence < a.confidence) ∨
      (∃ b u v, l = u ++ b :: v ∧ l.foldl mbStep (some a) = some b ∧
        a.confidence ≤ b.confidence ∧ (∀ x ∈ u, x.confidence ≤ b.confidence) ∧
        ∀ x ∈ v, x.confidence < b.confidence) := by
  intro l
  induction l with
  | nil => intro a; exact Or.inl ⟨rfl, by simp⟩
  | cons x xs ih =>
    intro a
    by_cases hc : ratCompare a.confidence x.confidence = Ordering.gt
    · have hxa : x.confidence < a.confidence := ratCompare_gt.mp hc
      have hstep : (x :: xs).foldl mbStep (some a) = xs.foldl mbStep (some a) := by
        rw [List.foldl_cons]
        congr 1
        simp [mbStep, hc]
      rcases ih a with ⟨heq, hall⟩ | ⟨b, u, v, hsp, heq, hab, hu, hv⟩
      · refine Or.inl ⟨by rw [hstep, heq], ?_⟩
        intro y hy
        rcases List.mem_cons.mp hy with rfl | hy'
        · exact hxa
        · exact hall y hy'
      · refine Or.inr ⟨b, x :: u, v, by simp [hsp], by rw [hstep, heq], hab, ?_, hv⟩
        intro y hy
        rcases List.mem_cons.mp hy with rfl | hy'
        · exact le_trans hxa.le hab
        · exact hu y hy'
    · have hax : a.confidence ≤ x.confidence := by
        by_contra hcon
        exact hc (ratCompare_gt.mpr (not_le.mp hcon))
      have hstep : (x :: xs).foldl mbStep (some a) = xs.foldl mbStep (some x) := by
        rw [List.foldl_cons]
        congr 1
        simp [mbStep, hc]
      rcases ih x with ⟨heq, hall⟩ | ⟨b, u, v, hsp, heq, hxb, hu, hv⟩
      · exact Or.inr ⟨x, [], xs, rfl, by rw [hstep, heq], hax, by simp, hall⟩
      · refine Or.inr ⟨b, x :: u, v, by simp [hsp], by rw [hstep, heq],
          le_trans hax hxb, ?_, hv⟩
        intro y hy
        rcases List.mem_cons.mp hy with rfl | hy'
        · exact hxb
        · exact hu y hy'

theorem maxByConf_char (l : List Scored) :
    (l = [] ∧ maxByConf l = none) ∨
    (∃ b u v, l = u ++ b :: v ∧ maxByConf l = some b ∧
      (∀ x ∈ u, x.confidence ≤ b.confidence) ∧
      ∀ x ∈ v, x.confidence < b.confidence) := by
  cases l with
  | nil => exact Or.inl ⟨rfl, rfl⟩
  | cons x xs =>
    have hm : maxByConf (x :: xs) = xs.foldl mbStep (some x) := by
      unfold maxByConf
      rw [List.foldl_cons]
      rfl
    rcases foldl_mbStep_char xs x with ⟨heq, hall⟩ | ⟨b, u, v, hsp, heq, hxb, hu, hv⟩
    · exact Or.inr ⟨x, [], xs, rfl, by rw [hm, heq], by simp, hall⟩
    · refine Or.inr ⟨b, x :: u, v, by simp [hsp], by rw [hm, heq], ?_, hv⟩
      intro y hy
      rcases List.mem_cons.mp hy with rfl | hy'
      · exact hxb
      · exact hu y hy'

theorem find_best_match_imported_id (e : AutoMatchEngine)
    (imp : MatchableTransaction) (existing : List MatchableTransaction) :
    (e.find_best_match imp existing).imported_tx_id = imp.id := by
  unfold AutoMatchEngine.find_best_match
  cases maxByConf (existing.filterMap (e.score_pair imp)) <;> rfl

theorem find_best_match_cases (e : AutoMatchEngine)
    (imp : MatchableTransaction) (existing : List MatchableTransaction) :
    e.find_best_match imp existing = ⟨imp.id, none, MatchType.None, 0, 0⟩ ∨
    ∃ b exp, exp ∈ existing ∧ e.score_pair imp exp = some b ∧
      e.find_best_match imp existing =
        ⟨imp.id, some b.tx_id, b.match_type, b.confidence, b.diff⟩ := by
  cases hmx : maxByConf (existing.filterMap (e.score_pair imp)) with
  | none =>
    left
    unfold AutoMatchEngine.find_best_match
    rw [hmx]
  | some b =>
    right
    have hbmem : b ∈ existing.filterMap (e.score_pair imp) := by
      rcases maxByConf_char (existing.filterMap (e.score_pair imp)) with
        ⟨_, hn⟩ | ⟨b', u, v, hsp, hsome, _, _⟩
      · rw [hn] at hmx; cases hmx
      · rw [hsome] at hmx
        obtain rfl := Option.some.inj hmx
        rw [hsp]
        simp
    rcases List.mem_filterMap.mp hbmem with ⟨exp, hexp, hsp⟩
    refine ⟨b, exp, hexp, hsp, ?_⟩
    unfold AutoMatchEngine.find_best_match
    rw [hmx]

/-- C5 counterexample: at `date_window_days = i32::MAX` the source's i32
increment `self.date_window_days + 1` wraps to `-2^31` (release mode; a debug
build panics), so the date score exceeds 1 and an accepted candidate is
returned with confidence `1 + 10^6/2^32 > 1` — here two equal-amount
transactions with identical descriptions and dates 10^6 days apart. -/
theorem find_matches_confidence_counterexample :
    (AutoMatchEngine.mk 2147483647 (7 / 10) 1).find_matches [⟨1, 0, ['a'], 50⟩]
        [⟨9, 1000000, ['a'], 50⟩] =
      [⟨1, some 9, MatchType.Fuzzy (1 + 1000000 / 4294967296),
        1 + 1000000 / 4294967296, 0⟩] ∧
    (1 : ℚ) < 1 + 1000000 / 4294967296 := by
  refine ⟨?_, by norm_num⟩
  have hsim : description_similarity ['a'] ['a'] = 1 := description_similarity_self _
  have hwrap : wrapI32 2147483648 = -2147483648 := by decide
  have hsp : (AutoMatchEngine.mk 2147483647 (7 / 10) 1).score_pair
      ⟨1, 0, ['a'], 50⟩ ⟨9, 1000000, ['a'], 50⟩ =
      some ⟨9, MatchType.Fuzzy (1 + 1000000 / 4294967296),
        1 + 1000000 / 4294967296, 0⟩ := by
    rw [score_pair_def]
    norm_num [hwrap, hsim]
  show [(AutoMatchEngine.mk 2147483647 (7 / 10) 1).find_best_match ⟨1, 0, ['a'], 50⟩
      [⟨9, 1000000, ['a'], 50⟩]] = _
  unfold AutoMatchEngine.find_best_match
  rw [List.filterMap_cons, hsp]
  rfl

/-- C5 (amended): one `MatchResult` per imported transaction in input order
(the ids of the results are exactly the imported ids, in order), and in every
result `matched_tx_id` is `None` iff `match_type` is `None`; whenever
`date_window_days < 2^31 - 1` — so the source's i32 increment
`date_window_days + 1` does not overflow — every returned confidence lies in
`[0, 1]`. -/
theorem find_matches_invariants_amended (e : AutoMatchEngine)
    (imported existing : List MatchableTransaction) :
    (e.find_matches imported existing).map (fun r => r.imported_tx_id) =
      imported.map (fun t => t.id) ∧
    (∀ r ∈ e.find_matches imported existing,
      (r.matched_tx_id = none ↔ r.match_type = MatchType.None)) ∧
    (e.date_window_days < 2147483647 →
      ∀ r ∈ e.find_matches imported existing,
        0 ≤ r.confidence ∧ r.confidence ≤ 1) := by
  refine ⟨?_, ?_, ?_⟩
  · unfold AutoMatchEngine.find_matches
    rw [List.map_map]
    exact List.map_congr_left (fun t _ => find_best_match_imported_id e t existing)
  · intro r hr
    unfold AutoMatchEngine.find_matches at hr
    rcases List.mem_map.mp hr with ⟨imp, _, rfl⟩
    rcases find_best_match_cases e imp existing with hres | ⟨b, exp, _, hsp, hres⟩
    · rw [hres]
      exact iff_of_true rfl rfl
    · rw [hres]
      exact iff_of_false (by simp) (score_pair_some_matchtype e imp exp b hsp)
  · intro hw r hr
    unfold AutoMatchEngine.find_matches at hr
    rcases List.mem_map.mp hr with ⟨imp, _, rfl⟩
    rcases find_best_match_cases e imp existing with hres | ⟨b, exp, _, hsp, hres⟩
    · rw [hres]
      exact ⟨by norm_num, by norm_num⟩
    · rw [hres]
      exact score_pair_some_conf_bounds e imp exp b hw hsp

theorem find_matches_invariants_amended_witness :
    (((AutoMatchEngine.mk 3 (7 / 10) 1).find_best_match ⟨1, 0, ['a'], 50⟩
        [⟨9, 0, ['a'], 50⟩]).matched_tx_id = none ↔
      ((AutoMatchEngine.mk 3 (7 / 10) 1).find_best_match ⟨1, 0, ['a'], 50⟩
        [⟨9, 0, ['a'], 50⟩]).match_type = MatchType.None) ∧
    (0 : ℚ) ≤ ((AutoMatchEngine.mk 3 (7 / 10) 1).find_best_match ⟨1, 0, ['a'], 50⟩
      [⟨9, 0, ['a'], 50⟩]).confidence :=
  ⟨(find_matches_invariants_amended (AutoMatchEngine.mk 3 (7 / 10) 1)
      [⟨1, 0, ['a'], 50⟩] [⟨9, 0, ['a'], 50⟩]).2.1 _ (List.mem_singleton.mpr rfl),
    ((find_matches_invariants_amended (AutoMatchEngine.mk 3 (7 / 10) 1)
      [⟨1, 0, ['a'], 50⟩] [⟨9, 0, ['a'], 50⟩]).2.2 (by norm_num) _
      (List.mem_singleton.mpr rfl)).1⟩

/-- C1 counterexample: two existing transactions both score `Exact` 1.0 for
the same imported transaction; `find_best_match` selects the second (id 101),
not the first-encountered (id 100): Rust `Iterator::max_by` returns the last
maximal element. -/
theorem find_best_match_tie_counterexample :
    (AutoMatchEngine.mk 3 (7 / 10) 1).score_pair ⟨1, 0, ['a'], 50⟩ ⟨100, 0, ['a'], 50⟩ =
        some ⟨100, MatchType.Exact, 1, 0⟩ ∧
    (AutoMatchEngine.mk 3 (7 / 10) 1).score_pair ⟨1, 0, ['a'], 50⟩ ⟨101, 0, ['a'], 50⟩ =
        some ⟨101, MatchType.Exact, 1, 0⟩ ∧
    ((AutoMatchEngine.mk 3 (7 / 10) 1).find_best_match ⟨1, 0, ['a'], 50⟩
        [⟨100, 0, ['a'], 50⟩, ⟨101, 0, ['a'], 50⟩]).matched_tx_id = some 101 :=
  ⟨rfl, rfl, rfl⟩

/-- C1 (amended): among all accepted candidates the engine keeps one with
maximum confidence, and when several achieve the identical maximum the
last-encountered candidate in evaluation order is selected (every candidate
after the selected one scores strictly lower). -/
theorem find_best_match_max_conf_last_tie (e : AutoMatchEngine)
    (imp : MatchableTransaction) (existing : List MatchableTransaction) :
    (existing.filterMap (e.score_pair imp) = [] →
      e.find_best_match imp existing = ⟨imp.id, none, MatchType.None, 0, 0⟩) ∧
    ∀ b, maxByConf (existing.filterMap (e.score_pair imp)) = some b →
      e.find_best_match imp existing =
        ⟨imp.id, some b.tx_id, b.match_type, b.confidence, b.diff⟩ ∧
      ∃ u v, existing.filterMap (e.score_pair imp) = u ++ b :: v ∧
        (∀ x ∈ u, x.confidence ≤ b.confidence) ∧
        ∀ x ∈ v, x.confidence < b.confidence := by
  constructor
  · intro hnil
    unfold AutoMatchEngine.find_best_match
    rw [hnil]
    rfl
  · intro b hb
    constructor
    · unfold AutoMatchEngine.find_best_match
      rw [hb]
    · rcases maxByConf_char (existing.filterMap (e.score_pair imp)) with
        ⟨_, hn⟩ | ⟨b', u, v, hsp, hsome, hu, hv⟩
      · rw [hn] at hb; cases hb
      · rw [hsome] at hb
        obtain rfl := Option.some.inj hb
        exact ⟨u, v, hsp, hu, hv⟩

theorem find_best_match_max_conf_last_tie_witness :
    ((AutoMatchEngine.mk 3 (7 / 10) 1).find_best_match ⟨1, 0, ['a'], 50⟩
        [⟨100, 0, ['a'], 50⟩, ⟨101, 0, ['a'], 50⟩]) =
      ⟨1, some 101, MatchType.Exact, 1, 0⟩ ∧
    ((AutoMatchEngine.mk 3 (7 / 10) 1).find_best_match ⟨1, 0, ['a'], 50⟩ []) =
      ⟨1, none, MatchType.None, 0, 0⟩ :=
  ⟨((find_best_match_max_conf_last_tie (AutoMatchEngine.mk 3 (7 / 10) 1)
      ⟨1, 0, ['a'], 50⟩ [⟨100, 0, ['a'], 50⟩, ⟨101, 0, ['a'], 50⟩]).2
      ⟨101, MatchType.Exact, 1, 0⟩ rfl).1,
    (find_best_match_max_conf_last_tie (AutoMatchEngine.mk 3 (7 / 10) 1)
      ⟨1, 0, ['a'], 50⟩ []).1 rfl⟩

/-! ### Duplicate detection -/

theorem filter_flatMap_comm {α β : Type} (l : List α) (g : α → List β) (p : β → Bool) :
    (l.flatMap g).filter p = l.flatMap (fun a => (g a).filter p) := by
  induction l with
  | nil => rfl
  | cons x xs ih => simp [List.flatMap_cons, List.filter_append, ih]

theorem map_flatMap_comm {α β γ : Type} (l : List α) (g : α → List β) (f : β → γ) :
    (l.flatMap g).map f = l.flatMap (fun a => (g a).map f) := by
  induction l with
  | nil => rfl
  | cons x xs ih => simp [List.flatMap_cons, ih]

theorem map_filter_map_eq_filterMap {α β γ : Type} (l : List α) (f : α → β)
    (p : β → Bool) (g : β → γ) :
    ((l.map f).filter p).map g =
      l.filterMap (fun x => if p (f x) then some (g (f x)) else none) := by
  induction l with
  | nil => rfl
  | cons x xs ih =>
    by_cases hp : p (f x) <;>
      simp [List.filter_cons, List.filterMap_cons, hp, ih]

theorem range_drop_filter (n i : Nat) :
    (List.range n).drop (i + 1) = (List.range n).filter (fun j => decide (i < j)) := by
  induction n with
  | zero => rfl
  | succ n ih =>
    rw [List.range_succ, List.filter_append,
      List.drop_append_eq_append_drop, ih]
    congr 1
    by_cases h : i + 1 ≤ n
    · have h1 : i < n := h
      have h2 : i + 1 - (List.range n).length = 0 := by rw [List.length_range]; omega
      rw [h2]
      simp [h1]
    · have h1 : ¬ i < n := by omega
      have h2 : 1 ≤ i + 1 - (List.range n).length := by rw [List.length_range]; omega
      rw [List.drop_eq_nil_iff.mpr (by simpa using h2)]
      simp [h1]

theorem dup_body_eq {γ : Type} (x y d w : Int) (s θ : ℚ) (v : γ) :
    (if x ≠ y then (none : Option γ)
     else if d > w then none
     else if s ≥ θ then some v else none) =
      (if decide (x = y ∧ d ≤ w ∧ s ≥ θ) = true then some v else none) := by
  by_cases h1 : x = y
  · by_cases h2 : d > w
    · simp [h1, h2, not_le.mpr h2]
    · by_cases h3 : s ≥ θ
      · simp [h1, h2, h3, not_lt.mp h2]
      · simp [h1, h2, h3]
  · simp [h1]

/-- C6: the duplicate detector reports exactly the id pairs of index pairs
`(i, j)` with `i < j` whose amounts are exactly equal, whose date distance is
within `window_days`, and whose normalized description similarity is
`≥ threshold` — pairwise only, no transitive closure. -/
theorem find_duplicates_eq_spec (transactions : List MatchableTransaction)
    (window_days : Int) (threshold : ℚ) :
    find_duplicates transactions window_days threshold =
      find_duplicatesSpec transactions window_days threshold := by
  unfold find_duplicates find_duplicatesSpec
  rw [filter_flatMap_comm, map_flatMap_comm]
  congr 1
  funext i
  rw [map_filter_map_eq_filterMap, range_drop_filter]
  congr 1
  funext j
  exact dup_body_eq _ _ _ _ _ _ _

/-! ### Categorization rules: stable priority order and first-match -/

namespace Rules

theorem sortRules_sorted (l : List CompiledRule) :
    List.Pairwise (fun a b => b.rule.priority ≤ a.rule.priority) (sortRules l) := by
  haveI : IsTotal CompiledRule (fun x y => y.rule.priority ≤ x.rule.priority) :=
    ⟨fun a b => le_total b.rule.priority a.rule.priority⟩
  haveI : IsTrans CompiledRule (fun x y => y.rule.priority ≤ x.rule.priority) :=
    ⟨fun _ _ _ hab hbc => le_trans hbc hab⟩
  exact List.sorted_insertionSort _ l

theorem dropWhile_head_false {α : Type} (q : α → Bool) :
    ∀ (l : List α) (y : α) (ys : List α), l.dropWhile q = y :: ys → q y = false := by
  intro l
  induction l with
  | nil => intro y ys h; simp at h
  | cons x xs ih =>
    intro y ys h
    rw [List.dropWhile_cons] at h
    split at h
    · exact ih y ys h
    · obtain ⟨rfl, _⟩ := List.cons.inj h
      rename_i hqx _
      simpa using hqx

theorem dropWhile_sorted_bound (R : CompiledRule) (S : List CompiledRule)
    (hs : List.Pairwise (fun a b => b.rule.priority ≤ a.rule.priority) S) :
    ∀ x ∈ S.dropWhile (fun b => decide (¬ b.rule.priority ≤ R.rule.priority)),
      x.rule.priority ≤ R.rule.priority := by
  intro x hx
  cases hdwe : S.dropWhile (fun b => decide (¬ b.rule.priority ≤ R.rule.priority)) with
  | nil => rw [hdwe] at hx; simp at hx
  | cons y ys =>
    have hqy := dropWhile_head_false _ S y ys hdwe
    have hrely : y.rule.priority ≤ R.rule.priority := not_not.mp (of_decide_eq_false hqy)
    have hsorted' : List.Pairwise (fun a b => b.rule.priority ≤ a.rule.priority) (y :: ys) :=
      List.Pairwise.sublist (hdwe ▸ List.dropWhile_sublist _) hs
    rw [hdwe] at hx
    rcases List.mem_cons.mp hx with rfl | hx'
    · exact hrely
    · exact le_trans ((List.pairwise_cons.mp hsorted').1 x hx') hrely

/-- `find?` over an ordered insertion into a descending-priority sorted list:
a strictly-higher-priority match in the list wins; otherwise the inserted
element wins when it matches; otherwise the list's match stands. -/
theorem find?_orderedInsert_priority (p : CompiledRule → Bool) (R : CompiledRule)
    (S : List CompiledRule)
    (hs : List.Pairwise (fun a b => b.rule.priority ≤ a.rule.priority) S) :
    (S.orderedInsert (fun x y => y.rule.priority ≤ x.rule.priority) R).find? p =
      match S.find? p with
      | none => if p R then some R else none
      | some b =>
        if R.rule.priority < b.rule.priority then some b
        else if p R then some R else some b := by
  obtain ⟨tw, dw, h1, h2, h3, h4⟩ :
      ∃ tw dw,
        S.orderedInsert (fun x y => y.rule.priority ≤ x.rule.priority) R =
            tw ++ R :: dw ∧
          S = tw ++ dw ∧
          (∀ x ∈ tw, R.rule.priority < x.rule.priority) ∧
          ∀ x ∈ dw, x.rule.priority ≤ R.rule.priority := by
    refine ⟨_, _, List.orderedInsert_eq_take_drop _ R S,
      (List.takeWhile_append_dropWhile ..).symm, ?_, ?_⟩
    · intro x hx
      have := List.mem_takeWhile_imp hx
      simpa [not_le] using this
    · exact dropWhile_sorted_bound R S hs
  rw [h1, List.find?_append, h2, List.find?_append]
  cases htwf : tw.find? p with
  | some c =>
    have hc := h3 c (List.mem_of_find?_eq_some htwf)
    cases hdwf : dw.find? p
    · exact (if_pos hc).symm
    · exact (if_pos hc).symm
  | none =>
    by_cases hpR : p R = true
    · rw [List.find?_cons_of_pos _ hpR]
      cases hdwf : dw.find? p with
      | some b =>
        have hble := h4 b (List.mem_of_find?_eq_some hdwf)
        exact ((if_neg (not_lt.mpr hble)).trans (if_pos hpR)).symm
      | none =>
        exact (if_pos hpR).symm
    · have hpR' : p R = false := by simpa using hpR
      rw [List.find?_cons_of_neg _ (by simp [hpR'])]
      cases hdwf : dw.find? p with
      | some b =>
        by_cases hlt : R.rule.priority < b.rule.priority
        · exact (if_pos hlt).symm
        · exact ((if_neg hlt).trans (if_neg (by simp [hpR']))).symm
      | none =>
        exact (if_neg (by simp [hpR'])).symm

theorem bestRuleSpec_cons (re : RegexEngine) (tx : CategorizableTransaction)
    (r : CategoryRule) (rs : List CategoryRule) :
    bestRuleSpec re tx (r :: rs) =
      match bestRuleSpec re tx rs with
      | none => if matchesSpec re r tx then some r else none
      | some b =>
        if matchesSpec re r tx ∧ r.priority ≥ b.priority then some r else some b :=
  rfl

theorem find?_sortRules_eq_bestRuleSpec (re : RegexEngine)
    (tx : CategorizableTransaction) :
    ∀ rules : List CategoryRule,
      ((sortRules (rules.map (compileRule re))).find?
          (fun cr => rule_matches cr tx)).map (fun cr => cr.rule) =
        bestRuleSpec re tx rules := by
  intro rules
  induction rules with
  | nil => rfl
  | cons r rs ih =>
    have hsort : sortRules ((r :: rs).map (compileRule re)) =
        (sortRules (rs.map (compileRule re))).orderedInsert
          (fun x y => y.rule.priority ≤ x.rule.priority) (compileRule re r) := rfl
    rw [hsort, find?_orderedInsert_priority _ _ _ (sortRules_sorted _),
      bestRuleSpec_cons]
    cases hf : (sortRules (rs.map (compileRule re))).find?
        (fun cr => rule_matches cr tx) with
    | none =>
      have hbs : bestRuleSpec re tx rs = none := by rw [← ih, hf]; rfl
      rw [hbs]
      show ((if rule_matches (compileRule re r) tx then some (compileRule re r)
          else none).map (fun cr => cr.rule)) =
        if matchesSpec re r tx then some r else none
      by_cases hpR : rule_matches (compileRule re r) tx = true
      · rw [if_pos hpR, if_pos (show matchesSpec re r tx = true from hpR)]
        rfl
      · have hpR' : rule_matches (compileRule re r) tx = false := by simpa using hpR
        have hm : ¬ (matchesSpec re r tx = true) := by simp [matchesSpec, hpR']
        rw [if_neg (by simp [hpR']), if_neg hm]
        rfl
    | some b =>
      have hbs : bestRuleSpec re tx rs = some b.rule := by rw [← ih, hf]; rfl
      rw [hbs]
      show ((if (compileRule re r).rule.priority < b.rule.priority then some b
          else if rule_matches (compileRule re r) tx then some (compileRule re r)
          else some b).map (fun cr => cr.rule)) =
        if matchesSpec re r tx ∧ r.priority ≥ b.rule.priority then some r
        else some b.rule
      by_cases hlt : (compileRule re r).rule.priority < b.rule.priority
      · rw [if_pos hlt, if_neg (fun hc => absurd hc.2 (not_le.mpr hlt))]
        rfl
      · by_cases hpR : rule_matches (compileRule re r) tx = true
        · rw [if_neg hlt, if_pos hpR,
            if_pos ⟨show matchesSpec re r tx = true from hpR, not_lt.mp hlt⟩]
          rfl
        · have hpR' : rule_matches (compileRule re r) tx = false := by simpa using hpR
          have hm : ¬ (matchesSpec re r tx = true) := by simp [matchesSpec, hpR']
          rw [if_neg hlt, if_neg (by simp [hpR']), if_neg (fun hc => hm hc.1)]
          rfl

/-- C7: the engine's compiled rule list is in descending-priority order, and
evaluation returns exactly the rule the spec describes: the highest-priority
matching rule, with the first-declared rule winning among equal
priorities. -/
theorem rules_sorted_and_first_match (re : RegexEngine)
    (rules : List CategoryRule) (tx : CategorizableTransaction) :
    List.Pairwise (fun a b => b.rule.priority ≤ a.rule.priority)
      (CategoryRuleEngine.new re rules).rules ∧
    (CategoryRuleEngine.new re rules).find_matching_rule tx =
      bestRuleSpec re tx rules :=
  ⟨sortRules_sorted _, find?_sortRules_eq_bestRuleSpec re tx rules⟩

theorem bestRuleSpec_skip (re : RegexEngine) (tx : CategorizableTransaction)
    (bad : CategoryRule) (hbad : matchesSpec re bad tx = false) :
    ∀ (l1 l2 : List CategoryRule),
      bestRuleSpec re tx (l1 ++ bad :: l2) = bestRuleSpec re tx (l1 ++ l2) := by
  intro l1 l2
  induction l1 with
  | nil =>
    simp only [List.nil_append]
    rw [bestRuleSpec_cons]
    cases hb : bestRuleSpec re tx l2 with
    | none => exact if_neg (by simp [hbad])
    | some b => exact if_neg (fun hc => absurd hc.1 (by simp [hbad]))
  | cons a l1' ih =>
    simp only [List.cons_append]
    rw [bestRuleSpec_cons, bestRuleSpec_cons, ih]

/-- C8: a `Regex` rule whose pattern fails to compile matches no transaction,
and removing it from the rule list does not change the engine's answer for
any transaction, so one bad rule cannot block the others (construction never
fails: `new` is total). -/
theorem invalid_regex_rule_inert (re : RegexEngine) (l1 l2 : List CategoryRule)
    (bad : CategoryRule) (tx : CategorizableTransaction)
    (hty : bad.match_type = MatchType.Regex)
    (hcomp : re.compile bad.pattern = none) :
    rule_matches (compileRule re bad) tx = false ∧
    (CategoryRuleEngine.new re (l1 ++ bad :: l2)).find_matching_rule tx =
      (CategoryRuleEngine.new re (l1 ++ l2)).find_matching_rule tx := by
  have hmatch : rule_matches (compileRule re bad) tx = false := by
    simp only [rule_matches, compileRule, hty, hcomp]
    split_ifs <;> rfl
  refine ⟨hmatch, ?_⟩
  have hms : matchesSpec re bad tx = false := hmatch
  calc (CategoryRuleEngine.new re (l1 ++ bad :: l2)).find_matching_rule tx
      = bestRuleSpec re tx (l1 ++ bad :: l2) :=
        find?_sortRules_eq_bestRuleSpec re tx _
    _ = bestRuleSpec re tx (l1 ++ l2) := bestRuleSpec_skip re tx bad hms l1 l2
    _ = (CategoryRuleEngine.new re (l1 ++ l2)).find_matching_rule tx :=
        (find?_sortRules_eq_bestRuleSpec re tx _).symm

theorem invalid_regex_rule_inert_witness :
    rule_matches
        (compileRule ⟨fun _ => none⟩ ⟨[], 5, ['x'], MatchType.Regex, [], none, none⟩)
        ⟨0, ['a'], 0, none⟩ = false ∧
    (CategoryRuleEngine.new ⟨fun _ => none⟩
        ([] ++ ⟨[], 5, ['x'], MatchType.Regex, [], none, none⟩ ::
          [⟨[], 1, ['a'], MatchType.Contains, [], none, none⟩])).find_matching_rule
        ⟨0, ['a'], 0, none⟩ =
      (CategoryRuleEngine.new ⟨fun _ => none⟩
        ([] ++ [⟨[], 1, ['a'], MatchType.Contains, [], none, none⟩])).find_matching_rule
        ⟨0, ['a'], 0, none⟩ :=
  invalid_regex_rule_inert ⟨fun _ => none⟩ []
    [⟨[], 1, ['a'], MatchType.Contains, [], none, none⟩]
    ⟨[], 5, ['x'], MatchType.Regex, [], none, none⟩ ⟨0, ['a'], 0, none⟩ rfl rfl

end Rules

/-! ### CSV: records without a date column are skipped silently -/

namespace Csv

/-- C3: when no date column is configured, a non-empty record is skipped
entirely and silently — the record loop proceeds to the remaining records
with no error and no transaction for the skipped record. -/
theorem skip_record_without_date_column
    (pd : List Char → List Char → Except CsvError Int)
    (pa : List Char → Except CsvError Int) (m : CsvColumnMapping)
    (r : List (List Char)) (rest : List (List (List Char)))
    (hdate : m.date_column = none) (hne : r ≠ []) :
    collectTxs pd pa m (r :: rest) = collectTxs pd pa m rest ∧
    parse_profile pd pa m (r :: rest) = parse_profile pd pa m rest := by
  have hne' : r.isEmpty = false := by
    cases r with
    | nil => exact absurd rfl hne
    | cons a l => rfl
  have hskip : processRecord pd pa m r = RecStep.skip := by
    unfold processRecord
    rw [hdate]
  have h1 : collectTxs pd pa m (r :: rest) = collectTxs pd pa m rest := by
    simp [collectTxs, hne', hskip]
  exact ⟨h1, by unfold parse_profile; rw [h1]⟩

theorem skip_record_without_date_column_witness :
    collectTxs (fun _ _ => Except.error (CsvError.InvalidDate []))
        (fun _ => Except.error (CsvError.InvalidAmount []))
        ⟨none, none, none, none, none, none, []⟩ [[['x']]] =
      collectTxs (fun _ _ => Except.error (CsvError.InvalidDate []))
        (fun _ => Except.error (CsvError.InvalidAmount []))
        ⟨none, none, none, none, none, none, []⟩ [] ∧
    parse_profile (fun _ _ => Except.error (CsvError.InvalidDate []))
        (fun _ => Except.error (CsvError.InvalidAmount []))
        ⟨none, none, none, none, none, none, []⟩ [[['x']]] =
      parse_profile (fun _ _ => Except.error (CsvError.InvalidDate []))
        (fun _ => Except.error (CsvError.InvalidAmount []))
        ⟨none, none, none, none, none, none, []⟩ [] :=
  skip_record_without_date_column _ _ _ _ _ rfl (by simp)

end Csv

/-! ### OFX: tag routing and date resolution -/

namespace Ofx

/-- C10: the six statement-level leaf tags always update the top-level
statement fields (overwriting them) and leave the transaction accumulator
untouched — the record updates below change only the named statement field —
even while `in_stmttrn` is set; any tag outside these six (and outside the
`STMTTRN` block markers) leaves every statement-level field unchanged. -/
theorem statement_tags_route_to_statement (pAmt : List Char → Option Int)
    (st : OfxState) (tag_name v : List Char) :
    (tag_name.map Char.toUpper = "ACCTID".toList →
      handleTag pAmt st tag_name (some v) = { st with account_id := v }) ∧
    (tag_name.map Char.toUpper = "BANKID".toList →
      handleTag pAmt st tag_name (some v) = { st with bank_id := some v }) ∧
    (tag_name.map Char.toUpper = "ACCTTYPE".toList →
      handleTag pAmt st tag_name (some v) = { st with account_type := some v }) ∧
    (tag_name.map Char.toUpper = "DTSTART".toList →
      handleTag pAmt st tag_name (some v) = { st with start_date := parse_ofx_date v }) ∧
    (tag_name.map Char.toUpper = "DTEND".toList →
      handleTag pAmt st tag_name (some v) = { st with end_date := parse_ofx_date v }) ∧
    (tag_name.map Char.toUpper = "CURDEF".toList →
      handleTag pAmt st tag_name (some v) = { st with currency := some v }) ∧
    (tag_name.map Char.toUpper ∉
        ["ACCTID".toList, "BANKID".toList, "ACCTTYPE".toList, "DTSTART".toList,
          "DTEND".toList, "CURDEF".toList, "STMTTRN".toList, "/STMTTRN".toList] →
      ∀ value : Option (List Char),
        (handleTag pAmt st tag_name value).account_id = st.account_id ∧
        (handleTag pAmt st tag_name value).bank_id = st.bank_id ∧
        (handleTag pAmt st tag_name value).account_type = st.account_type ∧
        (handleTag pAmt st tag_name value).start_date = st.start_date ∧
        (handleTag pAmt st tag_name value).end_date = st.end_date ∧
        (handleTag pAmt st tag_name value).currency = st.currency ∧
        (handleTag pAmt st tag_name value).transactions = st.transactions ∧
        (handleTag pAmt st tag_name value).in_stmttrn = st.in_stmttrn) := by
  refine ⟨?_, ?_, ?_, ?_, ?_, ?_, ?_⟩
  · intro h
    simp only [handleTag]
    rw [h, if_pos rfl]
  · intro h
    simp only [handleTag]
    rw [h, if_neg (by decide), if_pos rfl]
  · intro h
    simp only [handleTag]
    rw [h, if_neg (by decide), if_neg (by decide), if_pos rfl]
  · intro h
    simp only [handleTag]
    rw [h, if_neg (by decide), if_neg (by decide), if_neg (by decide), if_pos rfl]
  · intro h
    simp only [handleTag]
    rw [h, if_neg (by decide), if_neg (by decide), if_neg (by decide),
      if_neg (by decide), if_pos rfl]
  · intro h
    simp only [handleTag]
    rw [h, if_neg (by decide), if_neg (by decide), if_neg (by decide),
      if_neg (by decide), if_neg (by decide), if_pos rfl]
  · intro h value
    have h1 : ¬ (tag_name.map Char.toUpper = "ACCTID".toList) :=
      fun he => h (by rw [he]; decide)
    have h2 : ¬ (tag_name.map Char.toUpper = "BANKID".toList) :=
      fun he => h (by rw [he]; decide)
    have h3 : ¬ (tag_name.map Char.toUpper = "ACCTTYPE".toList) :=
      fun he => h (by rw [he]; decide)
    have h4 : ¬ (tag_name.map Char.toUpper = "DTSTART".toList) :=
      fun he => h (by rw [he]; decide)
    have h5 : ¬ (tag_name.map Char.toUpper = "DTEND".toList) :=
      fun he => h (by rw [he]; decide)
    have h6 : ¬ (tag_name.map Char.toUpper = "CURDEF".toList) :=
      fun he => h (by rw [he]; decide)
    have h7 : ¬ (tag_name.map Char.toUpper = "STMTTRN".toList) :=
      fun he => h (by rw [he]; decide)
    have h8 : ¬ (tag_name.map Char.toUpper = "/STMTTRN".toList) :=
      fun he => h (by rw [he]; decide)
    simp only [handleTag]
    rw [if_neg h1, if_neg h2, if_neg h3, if_neg h4, if_neg h5, if_neg h6,
      if_neg h7, if_neg h8]
    by_cases hin : st.in_stmttrn
    · cases hct : st.current_trx with
      | none => simp [hin, hct]
      | some trx => simp [hin, hct]
    · simp [hin]

theorem statement_tags_route_to_statement_witness :
    handleTag (fun _ => none) initState "ACCTID".toList (some ['9']) =
      { initState with account_id := ['9'] } ∧
    (handleTag (fun _ => none) initState "TRNTYPE".toList
        (some ['D'])).account_id = initState.account_id :=
  ⟨(statement_tags_route_to_statement (fun _ => none) initState "ACCTID".toList
      ['9']).1 (by decide),
    ((statement_tags_route_to_statement (fun _ => none) initState "TRNTYPE".toList
      ['D']).2.2.2.2.2.2 (by decide) (some ['D'])).1⟩

/-- C2 counterexample: a valid RFC 3339 timestamp whose 8-digit-prefix
interpretation fails (byte 4 is `-`, so the month field does not parse):
the source parser returns `None` without reaching the fallback, while the
claim's reading returns the fallback date. -/
theorem parse_ofx_date_no_fallback_counterexample :
    parse_ofx_date "2024-01-15T00:00:00Z".toList = none ∧
    parse_ofx_dateClaim "2024-01-15T00:00:00Z".toList = some ⟨2024, 1, 15⟩ ∧
    parse_rfc3339_date (strBytes (Csv.trimChars "2024-01-15T00:00:00Z".toList)) =
      some ⟨2024, 1, 15⟩ := by
  refine ⟨rfl, rfl, rfl⟩

/-- C2 (amended): date resolution equals the amended routing — a valid
8-digit prefix yields that date; the full-timestamp fallback is attempted
only when the string is shorter than 8 bytes or when the prefix fields parse
numerically but form no valid calendar date; a numeric failure in the prefix
of a string of 8 or more bytes yields `None` with no fallback. -/
theorem parse_ofx_date_eq_amended (s : List Char) :
    parse_ofx_date s = parse_ofx_dateAmended s := by
  simp only [parse_ofx_date, parse_ofx_dateAmended]
  by_cases hlen : (strBytes (Csv.trimChars s)).length ≥ 8
  · rw [if_pos hlen, if_pos hlen]
    cases hy : parseI32 ((strBytes (Csv.trimChars s)).take 4) with
    | none => rfl
    | some y =>
      cases hm : parseU32 (((strBytes (Csv.trimChars s)).drop 4).take 2) with
      | none => rfl
      | some m =>
        cases hd : parseU32 (((strBytes (Csv.trimChars s)).drop 6).take 2) with
        | none => rfl
        | some d => rfl
  · rw [if_neg hlen, if_neg hlen]

end Ofx

end Aequi
